import Mathlib

/-!
Shallow embedding of the move / evaluation / search-loop core of the
lclpy local-search framework (package locsearch), together with proofs of
its specified properties.

Sequences (tour orders) are embedded as `List Nat`; numpy in-place updates
become functional updates.  A distance matrix is a function
`Nat → Nat → Int` (entries may be asymmetric).  Python's
`range(a, b)` is `py_range a b`, Python sets of index pairs are `Finset
(Nat × Nat)`, and functions that raise become functions into `Except`.
-/

/-- Python `range(a, b)` as a list: `[a, a+1, ..., b-1]` (empty when `b ≤ a`). -/
def py_range (a b : Nat) : List Nat := List.range' a (b - a)

/-- Embeds `ArraySwap.move` (array_swap.py line 88): the simultaneous
assignment `array[i1], array[i2] = array[i2], array[i1]` reads both old
values first, then writes both positions. -/
def array_swap_move (array : List Nat) (mv : Nat × Nat) : List Nat :=
  (array.set mv.1 (array.getD mv.2 0)).set mv.2 (array.getD mv.1 0)

/-- Embeds `ArraySwap.undo_move` (array_swap.py line 105): the source body is
exactly `self.move(array, move)`. -/
def array_swap_undo_move (array : List Nat) (mv : Nat × Nat) : List Nat :=
  array_swap_move array mv

/-- Embeds `ArraySwap.get_moves` (array_swap.py line 120):
`for i in range(size): for j in range(i+1, size): yield (i, j)`. -/
def array_swap_get_moves (size : Nat) : List (Nat × Nat) :=
  (py_range 0 size).flatMap (fun i => (py_range (i + 1) size).map (fun j => (i, j)))

/-- Embeds the per-index body of `ArraySwap.changed_distances`
(array_swap.py lines 210-225): for one swapped index the pair below it
(wrapping to `(size-1, 0)` at index 0) and the pair above it (wrapping to
`(size-1, 0)` at index `size-1`). -/
def array_swap_changed_pairs_at (size i : Nat) : Finset (Nat × Nat) :=
  {(if i ≠ 0 then (i - 1, i) else (size - 1, 0)),
   (if i ≠ size - 1 then (i, i + 1) else (size - 1, 0))}

/-- Embeds `ArraySwap.changed_distances` (array_swap.py line 163): the Python
list of four appended pairs passed through `set(...)` is the union of the two
two-element pair sets of the move's indices. -/
def array_swap_changed_distances (size : Nat) (mv : Nat × Nat) : Finset (Nat × Nat) :=
  array_swap_changed_pairs_at size mv.1 ∪ array_swap_changed_pairs_at size mv.2

/-- Embeds the shared per-index branch of
`ArraySwap.transform_next_index_to_current_index` (array_swap.py lines
279-296): an index equal to one of the move's indices becomes the other
move index, any other index is unchanged.  The source runs this code once
for `frm` and once for `to`. -/
def array_swap_transform_index (q : Nat) (mv : Nat × Nat) : Nat :=
  if q = mv.1 ∨ q = mv.2 then (if q = mv.1 then mv.2 else mv.1) else q

/-- Embeds `ArraySwap.transform_next_index_to_current_index`
(array_swap.py line 229).  The source's second parameter is called `to`,
which is a reserved token in Lean, hence `tto` here. -/
def array_swap_transform_next_index_to_current_index (frm tto : Nat) (mv : Nat × Nat) :
    Nat × Nat :=
  (array_swap_transform_index frm mv, array_swap_transform_index tto mv)

/-- Embeds the while loop of `ArrayReverseOrder.move`
(array_reverse_order.py lines 104-113).  The source guard is
`index_1 < middle` with `middle = (orig_1 + orig_2) / 2` fixed before the
loop; since each pass increments `index_1` and decrements `index_2` once,
`index_1 < middle` holds at a pass exactly when `index_1 < index_2` holds
for the current values, which is the guard used here. -/
def array_reverse_order_move_loop (array : List Nat) (index_1 index_2 : Nat) : List Nat :=
  if index_1 < index_2 then
    array_reverse_order_move_loop
      (array_swap_move array (index_1, index_2)) (index_1 + 1) (index_2 - 1)
  else array
termination_by index_2 - index_1
decreasing_by omega

/-- Embeds `ArrayReverseOrder.move` (array_reverse_order.py line 88). -/
def array_reverse_order_move (array : List Nat) (mv : Nat × Nat) : List Nat :=
  array_reverse_order_move_loop array mv.1 mv.2

/-- Embeds `ArrayReverseOrder.undo_move` (array_reverse_order.py line 115):
the source body is exactly `self.move(array, move)`. -/
def array_reverse_order_undo_move (array : List Nat) (mv : Nat × Nat) : List Nat :=
  array_reverse_order_move array mv

/-- Embeds `ArrayReverseOrder.get_moves` (array_reverse_order.py line 130),
identical text to `ArraySwap.get_moves`. -/
def array_reverse_order_get_moves (size : Nat) : List (Nat × Nat) :=
  (py_range 0 size).flatMap (fun i => (py_range (i + 1) size).map (fun j => (i, j)))

/-- Embeds `ArrayReverseOrder.changed_distances`
(array_reverse_order.py lines 222-243): the boundary pair below `move[0]`
(wrapping at 0), the boundary pair above `move[1]` (wrapping at `size-1`),
and every pair `(i, i+1)` for `i` in `range(move[0], move[1])`. -/
def array_reverse_order_changed_distances (size : Nat) (mv : Nat × Nat) :
    Finset (Nat × Nat) :=
  insert (if mv.1 = 0 then (size - 1, 0) else (mv.1 - 1, mv.1))
    (insert (if mv.2 = size - 1 then (size - 1, 0) else (mv.2, mv.2 + 1))
      ((Finset.Ico mv.1 mv.2).image (fun i => (i, i + 1))))

/-- Embeds the shared per-index branch of
`ArrayReverseOrder.transform_next_index_to_current_index`
(array_reverse_order.py lines 297-309): an index inside
`range(move[0], move[1] + 1)` is reflected to `move[1] - (index - move[0])`,
any other index is unchanged.  The source runs this code once for `frm` and
once for `to`. -/
def array_reverse_order_transform_index (q : Nat) (mv : Nat × Nat) : Nat :=
  if mv.1 ≤ q ∧ q ≤ mv.2 then mv.2 - (q - mv.1) else q

/-- Embeds `ArrayReverseOrder.transform_next_index_to_current_index`
(array_reverse_order.py line 245).  The source's second parameter is called
`to`, which is a reserved token in Lean, hence `tto` here. -/
def array_reverse_order_transform_next_index_to_current_index (frm tto : Nat)
    (mv : Nat × Nat) : Nat × Nat :=
  (array_reverse_order_transform_index frm mv, array_reverse_order_transform_index tto mv)

/-- The error kinds the embedded functions can raise. -/
inductive PyError where
  | notImplementedError : PyError
  | attributeError : PyError

/-- Embeds `TspArraySwap.get_moves` (tsp_array_swap.py lines 68-83) as it
runs: the loop bounds read `self.size`, but the constructor chain stores
only `self._size` (array_swap.py line 86) and nothing in the repository
ever assigns `size` on a move object, so iterating the generator raises
`AttributeError` before yielding a single move, at every size. -/
def tsp_array_swap_get_moves (size : Nat) : Except PyError (List (Nat × Nat)) :=
  Except.error PyError.attributeError

/-- The enumeration `TspArraySwap` documents: its doctest
(tsp_array_swap.py lines 34-38) expects `get_moves` to yield the body's
double loop — the outer index starting at 1, so swaps touching position 0
are excluded — run over the stored `_size` in place of the never-assigned
`size`. -/
def tsp_array_swap_get_moves_intended (size : Nat) : List (Nat × Nat) :=
  (py_range 1 size).flatMap (fun i => (py_range (i + 1) size).map (fun j => (i, j)))

/-- Embeds `TspEvaluationFunction.evaluate` (tsp_evaluation_function.py
line 69): the loop over `range(size - 1)` adds the distance of each
consecutive pair, then the wrap-around distance from `order[-1]` to
`order[0]` is added. -/
def tsp_evaluate (size : Nat) (d : Nat → Nat → Int) (order : List Nat) : Int :=
  ((py_range 0 (size - 1)).foldl
    (fun value index => value + d (order.getD index 0) (order.getD (index + 1) 0)) 0)
  + d (order.getD (order.length - 1) 0) (order.getD 0 0)

/-- Embeds `TspEvaluationFunction.delta_evaluate` (tsp_evaluation_function.py
line 96), parameterised over the aid functions the constructor stored from
the move object.  The single Python loop accumulates, over the set of
changed pairs, the current distance of each pair and the distance of the
transformed pair, and returns the difference of the two sums. -/
def tsp_delta_evaluate (d : Nat → Nat → Int)
    (changed_distances : Nat × Nat → Finset (Nat × Nat))
    (transform : Nat → Nat → Nat × Nat → Nat × Nat)
    (current_order : List Nat) (mv : Nat × Nat) : Int :=
  (∑ p ∈ changed_distances mv,
      d (current_order.getD (transform p.1 p.2 mv).1 0)
        (current_order.getD (transform p.1 p.2 mv).2 0))
  - ∑ p ∈ changed_distances mv, d (current_order.getD p.1 0) (current_order.getD p.2 0)

/-- Embeds `bigger` (aidfunc/is_improvement_func.py): a new value is an
improvement when it is strictly bigger than the old value. -/
def is_improvement_bigger (old_value value : Int) : Bool := value > old_value

/-- Embeds `smaller` (aidfunc/is_improvement_func.py): a new value is an
improvement when it is strictly smaller than the old value. -/
def is_improvement_smaller (old_value value : Int) : Bool := value < old_value

/-- The part of the `SteepestDescent` solution object the run loop touches:
the live order, the best-found order and value (`set_as_best` copies), and
the running `base_value` of the loop. -/
structure SteepestDescentState where
  order : List Nat
  best_order : List Nat
  best_order_value : Int
  base_value : Int
deriving DecidableEq

/-- Embeds the neighbourhood scan of `SteepestDescent.run`
(steepest_descent.py lines 175-186): fold over the moves keeping the best
delta and its move.  The initialisation `_best_found_delta_base_value` is
`float("inf")` when minimising and `float("-inf")` when maximising,
embedded as `none`, which every integer delta improves on — exactly as
`smaller(inf, delta)` and `bigger(-inf, delta)` hold for every float
delta. -/
def steepest_descent_select (better : Int → Int → Bool)
    (evaluate_move : Nat × Nat → Int) (moves : List (Nat × Nat)) :
    Option Int × Option (Nat × Nat) :=
  moves.foldl
    (fun acc mv =>
      match acc.1 with
      | none => (some (evaluate_move mv), some mv)
      | some best_found_delta =>
        if better best_found_delta (evaluate_move mv) then
          (some (evaluate_move mv), some mv)
        else acc)
    (none, none)

/-- Embeds one pass of the main loop of `SteepestDescent.run`
(steepest_descent.py lines 172-203): scan the neighbourhood for the best
move, add its delta to `base_value`, and — only inside the test
`self._function(self._solution.best_order_value, base_value)` — perform
the move and `set_as_best(base_value)` (which copies the moved order).
The comparator, the move evaluation, the move application and the
neighbourhood are the capabilities the solution object supplies.  With an
empty neighbourhood the Python code would add an infinite delta and pass
`None` as a move; the theorems below assume a nonempty neighbourhood. -/
def steepest_descent_iteration (better : Int → Int → Bool)
    (evaluate_move : List Nat → Nat × Nat → Int)
    (apply_move : List Nat → Nat × Nat → List Nat)
    (moves : List (Nat × Nat)) (st : SteepestDescentState) : SteepestDescentState :=
  match steepest_descent_select better (evaluate_move st.order) moves with
  | (some best_found_delta, some best_found_move) =>
    if better st.best_order_value (st.base_value + best_found_delta) then
      { order := apply_move st.order best_found_move,
        best_order := apply_move st.order best_found_move,
        best_order_value := st.base_value + best_found_delta,
        base_value := st.base_value + best_found_delta }
    else { st with base_value := st.base_value + best_found_delta }
  | _ => st

/-- Embeds `TabuList` (tabu_list.py): a `deque(maxlen=length)` holding the
hashes of the added items, oldest at the front.  Fingerprints are modelled
as naturals; CPython hashes a small non-negative integer to itself, so the
stored hash is the fingerprint. -/
structure TabuList where
  maxlen : Nat
  lst : List Nat

/-- Embeds `TabuList.__init__` (tabu_list.py line 46): an empty deque with
the given maximal length. -/
def tabu_list_init (length : Nat) : TabuList :=
  { maxlen := length, lst := [] }

/-- Embeds `TabuList.add` (tabu_list.py line 51): append on the right; a
`deque` with `maxlen` discards from the left when appending at capacity. -/
def TabuList.add (t : TabuList) (item : Nat) : TabuList :=
  { t with lst := (t.lst ++ [item]).drop (t.lst.length + 1 - t.maxlen) }

/-- Embeds `TabuList.contains` (tabu_list.py line 54): membership of the
item's hash in the deque. -/
def TabuList.contains (t : TabuList) (item : Nat) : Bool :=
  decide (item ∈ t.lst)

/-- Embeds `MaxIterationsTerminationCriterion`
(max_iterations_termination_criterion.py): the bound and the iteration
counter. -/
structure MaxIterationsTerminationCriterion where
  max_iterations : Nat
  iterations : Nat

/-- Embeds `MaxIterationsTerminationCriterion.__init__`: counter starts at
0. -/
def max_iterations_init (max_iterations : Nat) : MaxIterationsTerminationCriterion :=
  { max_iterations := max_iterations, iterations := 0 }

/-- Embeds `MaxIterationsTerminationCriterion.keep_running` (line 57):
true while `_iterations < _max_iterations`. -/
def MaxIterationsTerminationCriterion.keep_running
    (c : MaxIterationsTerminationCriterion) : Bool :=
  c.iterations < c.max_iterations

/-- Embeds `MaxIterationsTerminationCriterion.iteration_done` (line 69):
increments `_iterations` by 1. -/
def MaxIterationsTerminationCriterion.iteration_done
    (c : MaxIterationsTerminationCriterion) : MaxIterationsTerminationCriterion :=
  { c with iterations := c.iterations + 1 }

/-- Embeds the `check_new_value` this criterion inherits from
`AbstractTerminationCriterion` (abstract_termination_criterion.py): a
`pass`, leaving the state unchanged. -/
def MaxIterationsTerminationCriterion.check_new_value
    (c : MaxIterationsTerminationCriterion) (value : Int) :
    MaxIterationsTerminationCriterion :=
  c

/-- The calls a search loop makes on a termination criterion between
constructions: per-iteration ticks and observed objective values. -/
inductive TerminationEvent where
  | iteration_done : TerminationEvent
  | check_new_value : Int → TerminationEvent

/-- True exactly for the per-iteration tick events. -/
def is_iteration_done_event : TerminationEvent → Bool :=
  fun e => match e with
  | TerminationEvent.iteration_done => true
  | TerminationEvent.check_new_value _ => false

/-- Dispatches one event to the embedded MaxIterations criterion. -/
def max_iterations_step (c : MaxIterationsTerminationCriterion)
    (e : TerminationEvent) : MaxIterationsTerminationCriterion :=
  match e with
  | TerminationEvent.iteration_done => c.iteration_done
  | TerminationEvent.check_new_value v => c.check_new_value v

/-- Embeds `MustImproveTerminationCriterion`
(must_improve_termination_criterion.py): the `_run` flag, the best value
seen (`float("-inf")` or `float("inf")` initially, hence an integer
extended with bottom and top), and the configured direction (the source
stores the chosen judge function; the direction flag recovers it). -/
structure MustImproveTerminationCriterion where
  run : Bool
  old_best_value : WithBot (WithTop Int)
  improvement_is_bigger : Bool

/-- Embeds `MustImproveTerminationCriterion.__init__` (lines 94-108):
`_run = True` and `_old_best_value` at minus infinity when bigger values
are improvements, plus infinity otherwise. -/
def must_improve_init (improvement_is_bigger : Bool) : MustImproveTerminationCriterion :=
  if improvement_is_bigger then
    { run := true, old_best_value := ⊥, improvement_is_bigger := improvement_is_bigger }
  else
    { run := true, old_best_value := ((⊤ : WithTop Int) : WithBot (WithTop Int)),
      improvement_is_bigger := improvement_is_bigger }

/-- The judge functions of aidfunc/is_improvement_func.py applied at the
extended values the criterion stores. -/
def is_improvement_bigger_e (old_value value : WithBot (WithTop Int)) : Bool :=
  value > old_value

/-- The strictly-smaller judge at extended values. -/
def is_improvement_smaller_e (old_value value : WithBot (WithTop Int)) : Bool :=
  value < old_value

/-- Embeds `MustImproveTerminationCriterion.check_new_value` (lines
124-142): judge the value against `_old_best_value`; on improvement store
it as the new best, otherwise clear `_run`; return the judgement. -/
def must_improve_check_new_value (c : MustImproveTerminationCriterion) (value : Int) :
    Bool × MustImproveTerminationCriterion :=
  let check := if c.improvement_is_bigger then
      is_improvement_bigger_e c.old_best_value (((value : WithTop Int)) : WithBot (WithTop Int))
    else
      is_improvement_smaller_e c.old_best_value (((value : WithTop Int)) : WithBot (WithTop Int))
  if check then
    (check, { c with old_best_value := (((value : WithTop Int)) : WithBot (WithTop Int)) })
  else
    (check, { c with run := false })

/-- The state change of one `check_new_value` call. -/
def must_improve_step (c : MustImproveTerminationCriterion) (value : Int) :
    MustImproveTerminationCriterion :=
  (must_improve_check_new_value c value).2

/-- Embeds `MustImproveTerminationCriterion.keep_running` (line 110):
returns `_run`. -/
def must_improve_keep_running (c : MustImproveTerminationCriterion) : Bool :=
  c.run

/-- The part of `TspSolution` (tsp_solution.py) the claims touch: the live
`_order` and the best-found record; the record does not exist before the
first `set_as_best`, hence the options. -/
structure TspSolution where
  order : List Nat
  best_order : Option (List Nat)
  best_order_value : Option Int

/-- Embeds `TspSolution.move` (line 145): delegates to the stored move
function, mutating only `_order`. -/
def tsp_solution_move (move_function : List Nat → Nat × Nat → List Nat)
    (sol : TspSolution) (mv : Nat × Nat) : TspSolution :=
  { sol with order := move_function sol.order mv }

/-- Embeds `TspSolution.undo_move` (line 157): delegates to the stored
undo function, mutating only `_order`. -/
def tsp_solution_undo_move (undo_function : List Nat → Nat × Nat → List Nat)
    (sol : TspSolution) (mv : Nat × Nat) : TspSolution :=
  { sol with order := undo_function sol.order mv }

/-- Embeds `TspSolution.set_as_best` (line 327): `numpy.copy` of the live
order — a fresh buffer, embedded as storing the current value — together
with the supplied evaluation value; no comparison is made. -/
def tsp_solution_set_as_best (sol : TspSolution) (evaluation_value : Int) : TspSolution :=
  { sol with best_order := some sol.order, best_order_value := some evaluation_value }

/-- A sequence of move / undo_move calls on a solution. -/
inductive SolutionOp where
  | move : Nat × Nat → SolutionOp
  | undo : Nat × Nat → SolutionOp

/-- Applies a sequence of move / undo_move calls to a solution. -/
def tsp_solution_apply_ops (move_function undo_function : List Nat → Nat × Nat → List Nat)
    (sol : TspSolution) (ops : List SolutionOp) : TspSolution :=
  ops.foldl
    (fun s op =>
      match op with
      | SolutionOp.move mv => tsp_solution_move move_function s mv
      | SolutionOp.undo mv => tsp_solution_undo_move undo_function s mv)
    sol

/-- Embeds `QuadraticAssignmentEvaluationFunction.delta_evaluate` together
with the constructor dispatch
(quadratic_assignment_evaluation_function.py lines 65-78 and 107-135):
when a move_function is supplied the constructor stores the two aid
functions but leaves `delta_evaluate` as the class method, whose body is
`raise NotImplementedError`; when no move_function is supplied,
`delta_evaluate` is replaced by `_not_implemented` (error_func.py), which
also raises `NotImplementedError`.  Both paths therefore raise on every
input. -/
def quadratic_assignment_delta_evaluate (has_move_function : Bool)
    (current_order : List Nat) (mv : Nat × Nat) : Except PyError Int :=
  if has_move_function then Except.error PyError.notImplementedError
  else Except.error PyError.notImplementedError

/-- Index access after a functional list update: the updated position reads
the new value when in bounds, every other position is unchanged. -/
theorem getD_set (l : List Nat) (a : Nat) (x : Nat) (q : Nat) :
    (l.set a x).getD q 0 = if q = a ∧ a < l.length then x else l.getD q 0 := by
  rw [List.getD_eq_getElem?_getD, List.getElem?_set]
  by_cases h1 : a = q
  · subst h1
    by_cases h2 : a < l.length
    · simp [h2]
    · rw [if_neg h2, if_neg (fun hc : a = a ∧ a < l.length => h2 hc.2)]
      rw [List.getD_eq_getElem?_getD, List.getElem?_eq_none (by omega)]
      simp
  · rw [if_neg h1, if_neg (fun hc : q = a ∧ a < l.length => h1 hc.1.symm),
      List.getD_eq_getElem?_getD]

/-- A swap keeps the length of the array. -/
theorem array_swap_move_length (l : List Nat) (mv : Nat × Nat) :
    (array_swap_move l mv).length = l.length := by
  simp [array_swap_move]

/-- Pointwise description of a swap: position `i` reads the old value at
`j`, position `j` reads the old value at `i`, all other positions are
unchanged. -/
theorem array_swap_move_getD (l : List Nat) (i j : Nat) (hi : i < l.length)
    (hj : j < l.length) (q : Nat) :
    (array_swap_move l (i, j)).getD q 0 =
      if q = i then l.getD j 0 else if q = j then l.getD i 0 else l.getD q 0 := by
  unfold array_swap_move
  rw [getD_set, getD_set, List.length_set]
  by_cases hqj : q = j
  · subst hqj
    by_cases hqi : q = i
    · subst hqi
      simp [hi, hj]
    · simp [hi, hj, hqi]
  · by_cases hqi : q = i
    · subst hqi
      simp [hi, hqj]
    · simp [hqi, hqj]

/-- The reversal loop keeps the length of the array. -/
theorem array_reverse_order_move_loop_length (l : List Nat) (i j : Nat) :
    (array_reverse_order_move_loop l i j).length = l.length := by
  induction l, i, j using array_reverse_order_move_loop.induct with
  | case1 l i j hlt ih =>
    rw [array_reverse_order_move_loop, if_pos hlt]
    rw [ih, array_swap_move_length]
  | case2 l i j hlt =>
    rw [array_reverse_order_move_loop, if_neg hlt]

/-- Pointwise description of the reversal loop: positions inside `[i, j]`
are reflected about the midpoint of the interval, positions outside it are
unchanged. -/
theorem array_reverse_order_move_loop_getD (l : List Nat) (i j : Nat) :
    j < l.length → ∀ q : Nat,
      (array_reverse_order_move_loop l i j).getD q 0 =
        if i ≤ q ∧ q ≤ j then l.getD (j - (q - i)) 0 else l.getD q 0 := by
  induction l, i, j using array_reverse_order_move_loop.induct with
  | case1 l i j hlt ih =>
    intro hj q
    rw [array_reverse_order_move_loop, if_pos hlt]
    have hlen : j - 1 < (array_swap_move l (i, j)).length := by
      rw [array_swap_move_length]; omega
    rw [ih hlen q]
    by_cases hband : i + 1 ≤ q ∧ q ≤ j - 1
    · rw [if_pos hband, if_pos (by omega : i ≤ q ∧ q ≤ j)]
      rw [array_swap_move_getD l i j (by omega) hj]
      rw [if_neg (by omega), if_neg (by omega)]
      congr 1
      omega
    · rw [if_neg hband]
      rw [array_swap_move_getD l i j (by omega) hj]
      by_cases hqi : q = i
      · subst hqi
        rw [if_pos rfl, if_pos (by omega : q ≤ q ∧ q ≤ j)]
        congr 1
        omega
      · rw [if_neg hqi]
        by_cases hqj : q = j
        · subst hqj
          rw [if_pos rfl, if_pos (by omega : i ≤ q ∧ q ≤ q)]
          congr 1
          omega
        · rw [if_neg hqj, if_neg (by omega : ¬(i ≤ q ∧ q ≤ j))]
  | case2 l i j hlt =>
    intro _ q
    rw [array_reverse_order_move_loop, if_neg hlt]
    by_cases h : i ≤ q ∧ q ≤ j
    · rw [if_pos h]
      congr 1
      omega
    · rw [if_neg h]

/-- The reversal move keeps the length of the array. -/
theorem array_reverse_order_move_length (l : List Nat) (mv : Nat × Nat) :
    (array_reverse_order_move l mv).length = l.length :=
  array_reverse_order_move_loop_length l mv.1 mv.2

/-- Pointwise description of the reversal move. -/
theorem array_reverse_order_move_getD (l : List Nat) (i j : Nat) (hj : j < l.length)
    (q : Nat) :
    (array_reverse_order_move l (i, j)).getD q 0 =
      if i ≤ q ∧ q ≤ j then l.getD (j - (q - i)) 0 else l.getD q 0 :=
  array_reverse_order_move_loop_getD l i j hj q

/-- The swap index transformation is semantically correct: reading the
transformed index from the unaltered array gives the value the queried
index would hold after the move. -/
theorem array_swap_transform_index_getD (l : List Nat) (i j q : Nat) (hij : i < j)
    (hj : j < l.length) :
    l.getD (array_swap_transform_index q (i, j)) 0 =
      (array_swap_move l (i, j)).getD q 0 := by
  rw [array_swap_move_getD l i j (by omega) hj]
  unfold array_swap_transform_index
  by_cases hqi : q = i
  · subst hqi
    simp
  · by_cases hqj : q = j
    · subst hqj
      simp [hqi]
    · simp [hqi, hqj]

/-- The reversal index transformation is semantically correct: reading the
transformed index from the unaltered array gives the value the queried
index would hold after the move. -/
theorem array_reverse_order_transform_index_getD (l : List Nat) (i j q : Nat)
    (hj : j < l.length) :
    l.getD (array_reverse_order_transform_index q (i, j)) 0 =
      (array_reverse_order_move l (i, j)).getD q 0 := by
  rw [array_reverse_order_move_getD l i j hj q]
  unfold array_reverse_order_transform_index
  by_cases h : i ≤ q ∧ q ≤ j
  · rw [if_pos h, if_pos h]
  · rw [if_neg h, if_neg h]

/-- Folding additions over a list is the same as adding the list sum. -/
theorem foldl_add_eq_sum (f : Nat → Int) (l : List Nat) (c : Int) :
    l.foldl (fun value index => value + f index) c = c + (l.map f).sum := by
  induction l generalizing c with
  | nil => simp
  | cons x xs ih =>
    rw [List.foldl_cons, ih, List.map_cons, List.sum_cons]
    ring

/-- The sum of a function mapped over `List.range n` is the sum over
`Finset.range n`. -/
theorem list_range_map_sum {M : Type} [AddCommMonoid M] (f : Nat → M) (n : Nat) :
    ((List.range n).map f).sum = ∑ p ∈ Finset.range n, f p := by
  induction n with
  | zero => simp
  | succ m ih =>
    rw [List.range_succ, List.map_append, List.sum_append, ih, Finset.sum_range_succ]
    simp

/-- Folding additions over `range(0, n)` is the sum over `Finset.range n`. -/
theorem pyrange_foldl_sum (f : Nat → Int) (n : Nat) (c : Int) :
    (py_range 0 n).foldl (fun value index => value + f index) c =
      c + ∑ p ∈ Finset.range n, f p := by
  rw [foldl_add_eq_sum]
  congr 1
  have h : py_range 0 n = List.range n := by
    rw [py_range, Nat.sub_zero, List.range_eq_range']
  rw [h, list_range_map_sum]

/-- The TSP evaluation equals the sum of the matrix entries of all `n`
cyclically consecutive position pairs. -/
theorem tsp_evaluate_eq_cycle_sum (d : Nat → Nat → Int) (n : Nat) (order : List Nat)
    (hlen : order.length = n) (hn : 1 ≤ n) :
    tsp_evaluate n d order =
      ∑ p ∈ Finset.range n, d (order.getD p 0) (order.getD ((p + 1) % n) 0) := by
  obtain ⟨m, rfl⟩ : ∃ m, n = m + 1 := ⟨n - 1, by omega⟩
  unfold tsp_evaluate
  rw [pyrange_foldl_sum, zero_add, hlen, Finset.sum_range_succ]
  have hsplit : ∀ p ∈ Finset.range (m + 1 - 1),
      d (order.getD p 0) (order.getD (p + 1) 0) =
        d (order.getD p 0) (order.getD ((p + 1) % (m + 1)) 0) := by
    intro p hp
    rw [Finset.mem_range] at hp
    rw [Nat.mod_eq_of_lt (by omega)]
  rw [Finset.sum_congr rfl hsplit]
  have h1 : m + 1 - 1 = m := by omega
  have h2 : (m + 1) % (m + 1) = 0 := Nat.mod_self (m + 1)
  rw [h1, h2]

/-- The cyclic edge starting at position `p`: the pair `(p, (p+1) mod n)`. -/
def edge_of (n p : Nat) : Nat × Nat := (p, (p + 1) % n)

/-- The cyclic predecessor of position `i` in a tour of `n` positions. -/
def wrap_index (n i : Nat) : Nat := if i = 0 then n - 1 else i - 1

/-- Successor modulo `n`, written without the modulo for positions below
`n`. -/
theorem succ_mod (n p : Nat) (hp : p < n) :
    (p + 1) % n = if p + 1 = n then 0 else p + 1 := by
  by_cases h : p + 1 = n
  · rw [if_pos h, h, Nat.mod_self]
  · rw [if_neg h, Nat.mod_eq_of_lt (by omega)]

/-- The changed pairs of one swapped index are the cyclic edges starting at
the index and at its cyclic predecessor. -/
theorem array_swap_changed_pairs_at_eq_image (n i : Nat) (hi : i < n) :
    array_swap_changed_pairs_at n i = Finset.image (edge_of n) {wrap_index n i, i} := by
  rw [Finset.image_insert, Finset.image_singleton]
  unfold array_swap_changed_pairs_at edge_of wrap_index
  by_cases h0 : i = 0
  · subst h0
    by_cases hlast : (0 : Nat) = n - 1
    · have hn1 : n = 1 := by omega
      subst hn1
      decide
    · rw [if_neg (by omega : ¬(0 : Nat) ≠ 0), if_pos (by omega : (0 : Nat) ≠ n - 1)]
      have h1 : n - 1 + 1 = n := by omega
      have h2 : (0 + 1) % n = 0 + 1 := Nat.mod_eq_of_lt (by omega)
      simp [h1, h2, Nat.mod_self]
  · rw [if_pos h0, if_neg (by omega : ¬(i = 0))]
    have h1 : (i - 1 + 1) % n = i := by
      have : i - 1 + 1 = i := by omega
      rw [this, Nat.mod_eq_of_lt hi]
    rw [h1]
    by_cases hlast : i = n - 1
    · rw [if_neg (by omega : ¬i ≠ n - 1)]
      have h2 : (i + 1) % n = 0 := by
        have : i + 1 = n := by omega
        rw [this, Nat.mod_self]
      rw [h2, hlast]
    · rw [if_pos (by omega : i ≠ n - 1)]
      rw [Nat.mod_eq_of_lt (by omega : i + 1 < n)]

/-- The changed pairs of a swap move are the cyclic edges starting at the
two swapped indices and at their cyclic predecessors. -/
theorem array_swap_changed_distances_eq_image (n i j : Nat) (hi : i < n) (hj : j < n) :
    array_swap_changed_distances n (i, j) =
      Finset.image (edge_of n) ({wrap_index n i, i} ∪ {wrap_index n j, j}) := by
  rw [Finset.image_union]
  unfold array_swap_changed_distances
  rw [array_swap_changed_pairs_at_eq_image n i hi,
    array_swap_changed_pairs_at_eq_image n j hj]

/-- The changed pairs of a reversal move are the cyclic edges starting at
the interval `[move[0], move[1]]` and at the cyclic predecessor of
`move[0]`. -/
theorem array_reverse_order_changed_distances_eq_image (n i j : Nat) (hij : i ≤ j)
    (hj : j < n) :
    array_reverse_order_changed_distances n (i, j) =
      Finset.image (edge_of n) (insert (wrap_index n i) (Finset.Icc i j)) := by
  have hicc : Finset.Icc i j = insert j (Finset.Ico i j) := by
    rw [Finset.Ico_insert_right hij]
  rw [hicc, Finset.image_insert, Finset.image_insert]
  unfold array_reverse_order_changed_distances
  have h1 : (if i = 0 then (n - 1, 0) else (i - 1, i)) = edge_of n (wrap_index n i) := by
    unfold edge_of wrap_index
    by_cases h0 : i = 0
    · rw [if_pos h0, if_pos h0]
      have : n - 1 + 1 = n := by omega
      rw [this, Nat.mod_self]
    · rw [if_neg h0, if_neg h0]
      have : i - 1 + 1 = i := by omega
      rw [this, Nat.mod_eq_of_lt (by omega)]
  have h2 : (if j = n - 1 then (n - 1, 0) else (j, j + 1)) = edge_of n j := by
    unfold edge_of
    by_cases hlast : j = n - 1
    · rw [if_pos hlast]
      have : j + 1 = n := by omega
      rw [this, Nat.mod_self, hlast]
    · rw [if_neg hlast, Nat.mod_eq_of_lt (by omega)]
  have h3 : (Finset.Ico i j).image (fun k => (k, k + 1)) =
      (Finset.Ico i j).image (edge_of n) := by
    apply Finset.image_congr
    intro k hk
    rw [Finset.coe_Ico, Set.mem_Ico] at hk
    unfold edge_of
    rw [Nat.mod_eq_of_lt (by omega)]
  rw [h1, h2, h3]

/-- Restricting the difference of two full cyclic sums to a set of edge
positions outside which the two tours agree. -/
theorem cycle_sum_sub (d : Nat → Nat → Int) (s s2 : List Nat) (n : Nat) (P : Finset Nat)
    (hP : P ⊆ Finset.range n)
    (hframe : ∀ p ∈ Finset.range n, p ∉ P →
      d (s2.getD p 0) (s2.getD ((p + 1) % n) 0) =
        d (s.getD p 0) (s.getD ((p + 1) % n) 0)) :
    (∑ p ∈ Finset.range n, d (s2.getD p 0) (s2.getD ((p + 1) % n) 0))
      - ∑ p ∈ Finset.range n, d (s.getD p 0) (s.getD ((p + 1) % n) 0) =
    (∑ p ∈ P, d (s2.getD p 0) (s2.getD ((p + 1) % n) 0))
      - ∑ p ∈ P, d (s.getD p 0) (s.getD ((p + 1) % n) 0) := by
  rw [← Finset.sum_sub_distrib, ← Finset.sum_sub_distrib]
  apply (Finset.sum_subset hP _).symm
  intro p hp hnp
  rw [hframe p hp hnp, sub_self]

/-- Template for delta-evaluation equivalence: if the changed pairs of a
move are the cyclic edges starting at a set `P` of positions, the index
transformation reads post-move values from the pre-move sequence, and the
move leaves every position outside `P` (and its successor edge) unchanged,
then delta evaluation equals the difference of the two full evaluations. -/
theorem tsp_delta_evaluate_eq_of_edges (d : Nat → Nat → Int) (order s2 : List Nat)
    (mv : Nat × Nat) (P : Finset Nat)
    (changed : Nat × Nat → Finset (Nat × Nat))
    (transform : Nat → Nat → Nat × Nat → Nat × Nat)
    (hlen2 : s2.length = order.length) (hn : 1 ≤ order.length)
    (hchanged : changed mv = Finset.image (edge_of order.length) P)
    (hP : P ⊆ Finset.range order.length)
    (htrans : ∀ frm tto : Nat,
      order.getD (transform frm tto mv).1 0 = s2.getD frm 0 ∧
      order.getD (transform frm tto mv).2 0 = s2.getD tto 0)
    (hframe : ∀ p ∈ Finset.range order.length, p ∉ P →
      s2.getD p 0 = order.getD p 0 ∧
      s2.getD ((p + 1) % order.length) 0 = order.getD ((p + 1) % order.length) 0) :
    tsp_delta_evaluate d changed transform order mv =
      tsp_evaluate order.length d s2 - tsp_evaluate order.length d order := by
  have hinj : ∀ x ∈ P, ∀ y ∈ P,
      edge_of order.length x = edge_of order.length y → x = y :=
    fun x _ y _ h => congrArg Prod.fst h
  rw [tsp_evaluate_eq_cycle_sum d order.length s2 hlen2 hn,
    tsp_evaluate_eq_cycle_sum d order.length order rfl hn,
    cycle_sum_sub d order s2 order.length P hP
      (fun p hp hnp => by rw [(hframe p hp hnp).1, (hframe p hp hnp).2])]
  unfold tsp_delta_evaluate
  rw [hchanged, Finset.sum_image hinj, Finset.sum_image hinj]
  congr 1
  · apply Finset.sum_congr rfl
    intro p _
    simp only [edge_of]
    rw [(htrans p ((p + 1) % order.length)).1, (htrans p ((p + 1) % order.length)).2]

/-- Delta-evaluation equivalence for the swap family. -/
theorem tsp_delta_evaluate_array_swap (d : Nat → Nat → Int) (order : List Nat)
    (i j : Nat) (hij : i < j) (hj : j < order.length) :
    tsp_delta_evaluate d (array_swap_changed_distances order.length)
        array_swap_transform_next_index_to_current_index order (i, j) =
      tsp_evaluate order.length d (array_swap_move order (i, j))
        - tsp_evaluate order.length d order := by
  apply tsp_delta_evaluate_eq_of_edges d order (array_swap_move order (i, j)) (i, j)
    ({wrap_index order.length i, i} ∪ {wrap_index order.length j, j})
  · exact array_swap_move_length order (i, j)
  · omega
  · exact array_swap_changed_distances_eq_image order.length i j (by omega) hj
  · intro p hp
    simp only [Finset.mem_union, Finset.mem_insert, Finset.mem_singleton] at hp
    rw [Finset.mem_range]
    unfold wrap_index at hp
    split_ifs at hp <;> omega
  · intro frm tto
    exact ⟨array_swap_transform_index_getD order i j frm hij hj,
      array_swap_transform_index_getD order i j tto hij hj⟩
  · intro p hp hnp
    rw [Finset.mem_range] at hp
    simp only [Finset.mem_union, Finset.mem_insert, Finset.mem_singleton, not_or] at hnp
    obtain ⟨⟨h1, h2⟩, h3, h4⟩ := hnp
    constructor
    · rw [array_swap_move_getD order i j (by omega) hj, if_neg h2, if_neg h4]
    · have hq : (p + 1) % order.length ≠ i ∧ (p + 1) % order.length ≠ j := by
        rw [succ_mod order.length p hp]
        unfold wrap_index at h1 h3
        constructor <;> split_ifs at h1 h3 ⊢ <;> omega
      rw [array_swap_move_getD order i j (by omega) hj, if_neg hq.1, if_neg hq.2]

/-- Delta-evaluation equivalence for the reversal family. -/
theorem tsp_delta_evaluate_array_reverse_order (d : Nat → Nat → Int) (order : List Nat)
    (i j : Nat) (hij : i < j) (hj : j < order.length) :
    tsp_delta_evaluate d (array_reverse_order_changed_distances order.length)
        array_reverse_order_transform_next_index_to_current_index order (i, j) =
      tsp_evaluate order.length d (array_reverse_order_move order (i, j))
        - tsp_evaluate order.length d order := by
  apply tsp_delta_evaluate_eq_of_edges d order (array_reverse_order_move order (i, j))
    (i, j) (insert (wrap_index order.length i) (Finset.Icc i j))
  · exact array_reverse_order_move_length order (i, j)
  · omega
  · exact array_reverse_order_changed_distances_eq_image order.length i j (by omega) hj
  · intro p hp
    simp only [Finset.mem_insert, Finset.mem_Icc] at hp
    rw [Finset.mem_range]
    unfold wrap_index at hp
    split_ifs at hp <;> omega
  · intro frm tto
    exact ⟨array_reverse_order_transform_index_getD order i j frm hj,
      array_reverse_order_transform_index_getD order i j tto hj⟩
  · intro p hp hnp
    rw [Finset.mem_range] at hp
    simp only [Finset.mem_insert, Finset.mem_Icc, not_or, not_and] at hnp
    obtain ⟨h1, h2⟩ := hnp
    constructor
    · rw [array_reverse_order_move_getD order i j hj p,
        if_neg (fun hc => absurd (h2 hc.1) (by omega))]
    · have hq : ¬(i ≤ (p + 1) % order.length ∧ (p + 1) % order.length ≤ j) := by
        rw [succ_mod order.length p hp]
        unfold wrap_index at h1
        intro hc
        by_cases hcase : p + 1 = order.length
        · rw [if_pos hcase] at hc
          split_ifs at h1 <;> omega
        · rw [if_neg hcase] at hc
          have hpicc : ¬(i ≤ p ∧ p ≤ j) := fun hcc => absurd (h2 hcc.1) (by omega)
          split_ifs at h1 <;> omega
      rw [array_reverse_order_move_getD order i j hj ((p + 1) % order.length), if_neg hq]

/-- C1: for every sequence and every valid move (i, j) with i < j within
bounds, delta evaluation with the swap aid functions equals the difference
of the full TSP evaluations around a swap, and delta evaluation with the
reversal aid functions equals the difference of the full TSP evaluations
around a reversal; the distance matrix may be asymmetric and the move may
touch position 0 or position size-1.  Delta evaluation is a pure function
of the unchanged sequence, so the sequence is left unchanged by
construction. -/
theorem claim_C1 (d : Nat → Nat → Int) (order : List Nat) (i j : Nat)
    (hij : i < j) (hj : j < order.length) :
    (tsp_delta_evaluate d (array_swap_changed_distances order.length)
        array_swap_transform_next_index_to_current_index order (i, j) =
      tsp_evaluate order.length d (array_swap_move order (i, j))
        - tsp_evaluate order.length d order) ∧
    (tsp_delta_evaluate d (array_reverse_order_changed_distances order.length)
        array_reverse_order_transform_next_index_to_current_index order (i, j) =
      tsp_evaluate order.length d (array_reverse_order_move order (i, j))
        - tsp_evaluate order.length d order) :=
  ⟨tsp_delta_evaluate_array_swap d order i j hij hj,
   tsp_delta_evaluate_array_reverse_order d order i j hij hj⟩

/-- Witness for C1 at an asymmetric matrix, the sequence [0, 2, 1, 3] and
the move (0, 3), which touches position 0 and position size-1. -/
theorem claim_C1_witness :
    ((0 : Nat) < 3 ∧ 3 < ([0, 2, 1, 3] : List Nat).length) ∧
    ((tsp_delta_evaluate (fun a b => Int.ofNat (a * a * b + 2 * b))
        (array_swap_changed_distances ([0, 2, 1, 3] : List Nat).length)
        array_swap_transform_next_index_to_current_index [0, 2, 1, 3] (0, 3) =
      tsp_evaluate ([0, 2, 1, 3] : List Nat).length
          (fun a b => Int.ofNat (a * a * b + 2 * b))
          (array_swap_move [0, 2, 1, 3] (0, 3))
        - tsp_evaluate ([0, 2, 1, 3] : List Nat).length
            (fun a b => Int.ofNat (a * a * b + 2 * b)) [0, 2, 1, 3]) ∧
    (tsp_delta_evaluate (fun a b => Int.ofNat (a * a * b + 2 * b))
        (array_reverse_order_changed_distances ([0, 2, 1, 3] : List Nat).length)
        array_reverse_order_transform_next_index_to_current_index [0, 2, 1, 3] (0, 3) =
      tsp_evaluate ([0, 2, 1, 3] : List Nat).length
          (fun a b => Int.ofNat (a * a * b + 2 * b))
          (array_reverse_order_move [0, 2, 1, 3] (0, 3))
        - tsp_evaluate ([0, 2, 1, 3] : List Nat).length
            (fun a b => Int.ofNat (a * a * b + 2 * b)) [0, 2, 1, 3])) :=
  ⟨⟨by decide, by decide⟩,
   claim_C1 (fun a b => Int.ofNat (a * a * b + 2 * b)) [0, 2, 1, 3] 0 3
     (by decide) (by decide)⟩

/-- The swap index transformation exchanges an index with the move's other
index exactly when it equals one of the move's two indices. -/
theorem array_swap_transform_index_eq (q i j : Nat) :
    array_swap_transform_index q (i, j) =
      if q = i then j else if q = j then i else q := by
  unfold array_swap_transform_index
  by_cases hqi : q = i
  · simp [hqi]
  · by_cases hqj : q = j
    · simp [hqi, hqj]
    · simp [hqi, hqj]

/-- C2: for every sequence, every valid move (i, j) and all indices frm and
tto, reading the transformed index pair from the unaltered sequence gives
the values the queried pair holds after the move, for both the swap family
and the reversal family; moreover the swap transformation exchanges an
index with the move's other index exactly when it equals one of the move's
indices, and the reversal transformation reflects an index inside
[move[0], move[1]] to move[1] - (index - move[0]) and keeps an index
outside the interval unchanged. -/
theorem claim_C2 (s : List Nat) (i j frm tto : Nat) (hij : i < j)
    (hj : j < s.length) :
    (s.getD (array_swap_transform_next_index_to_current_index frm tto (i, j)).1 0 =
        (array_swap_move s (i, j)).getD frm 0 ∧
      s.getD (array_swap_transform_next_index_to_current_index frm tto (i, j)).2 0 =
        (array_swap_move s (i, j)).getD tto 0) ∧
    (s.getD (array_reverse_order_transform_next_index_to_current_index frm tto (i, j)).1 0 =
        (array_reverse_order_move s (i, j)).getD frm 0 ∧
      s.getD (array_reverse_order_transform_next_index_to_current_index frm tto (i, j)).2 0 =
        (array_reverse_order_move s (i, j)).getD tto 0) ∧
    (array_swap_transform_next_index_to_current_index frm tto (i, j)).1 =
      (if frm = i then j else if frm = j then i else frm) ∧
    (array_reverse_order_transform_next_index_to_current_index frm tto (i, j)).1 =
      (if i ≤ frm ∧ frm ≤ j then j - (frm - i) else frm) :=
  ⟨⟨array_swap_transform_index_getD s i j frm hij hj,
    array_swap_transform_index_getD s i j tto hij hj⟩,
   ⟨array_reverse_order_transform_index_getD s i j frm hj,
    array_reverse_order_transform_index_getD s i j tto hj⟩,
   array_swap_transform_index_eq frm i j,
   rfl⟩

/-- Witness for C2 at the sequence [5, 6, 7, 8, 9], the move (1, 3) and the
index pair (3, 4). -/
theorem claim_C2_witness :
    ((1 : Nat) < 3 ∧ 3 < ([5, 6, 7, 8, 9] : List Nat).length) ∧
    ((([5, 6, 7, 8, 9] : List Nat).getD
          (array_swap_transform_next_index_to_current_index 3 4 (1, 3)).1 0 =
        (array_swap_move [5, 6, 7, 8, 9] (1, 3)).getD 3 0 ∧
      ([5, 6, 7, 8, 9] : List Nat).getD
          (array_swap_transform_next_index_to_current_index 3 4 (1, 3)).2 0 =
        (array_swap_move [5, 6, 7, 8, 9] (1, 3)).getD 4 0) ∧
    (([5, 6, 7, 8, 9] : List Nat).getD
          (array_reverse_order_transform_next_index_to_current_index 3 4 (1, 3)).1 0 =
        (array_reverse_order_move [5, 6, 7, 8, 9] (1, 3)).getD 3 0 ∧
      ([5, 6, 7, 8, 9] : List Nat).getD
          (array_reverse_order_transform_next_index_to_current_index 3 4 (1, 3)).2 0 =
        (array_reverse_order_move [5, 6, 7, 8, 9] (1, 3)).getD 4 0) ∧
    (array_swap_transform_next_index_to_current_index 3 4 (1, 3)).1 =
      (if (3 : Nat) = 1 then 3 else if (3 : Nat) = 3 then 1 else 3) ∧
    (array_reverse_order_transform_next_index_to_current_index 3 4 (1, 3)).1 =
      (if (1 : Nat) ≤ 3 ∧ (3 : Nat) ≤ 3 then 3 - (3 - 1) else 3)) :=
  ⟨⟨by decide, by decide⟩, claim_C2 [5, 6, 7, 8, 9] 1 3 3 4 (by decide) (by decide)⟩

/-- Two lists of equal length that agree at every in-range index are
equal. -/
theorem list_eq_of_getD (l1 l2 : List Nat) (hlen : l1.length = l2.length)
    (h : ∀ q, q < l1.length → l1.getD q 0 = l2.getD q 0) : l1 = l2 := by
  apply List.ext_getElem hlen
  intro n h1 h2
  have hq := h n h1
  rwa [List.getD_eq_getElem l1 0 h1, List.getD_eq_getElem l2 0 h2] at hq

/-- Applying the same swap twice restores the original array. -/
theorem array_swap_move_involutive (s : List Nat) (i j : Nat) (hij : i < j)
    (hj : j < s.length) :
    array_swap_move (array_swap_move s (i, j)) (i, j) = s := by
  apply list_eq_of_getD
  · rw [array_swap_move_length, array_swap_move_length]
  · intro q hq
    rw [array_swap_move_length, array_swap_move_length] at hq
    rw [array_swap_move_getD (array_swap_move s (i, j)) i j
      (by rw [array_swap_move_length]; omega) (by rw [array_swap_move_length]; exact hj) q]
    by_cases hqi : q = i
    · rw [if_pos hqi, array_swap_move_getD s i j (by omega) hj j,
        if_neg (by omega), if_pos rfl, hqi]
    · rw [if_neg hqi]
      by_cases hqj : q = j
      · rw [if_pos hqj, array_swap_move_getD s i j (by omega) hj i, if_pos rfl, hqj]
      · rw [if_neg hqj, array_swap_move_getD s i j (by omega) hj q,
          if_neg hqi, if_neg hqj]

/-- Applying the same reversal twice restores the original array. -/
theorem array_reverse_order_move_involutive (s : List Nat) (i j : Nat)
    (hj : j < s.length) :
    array_reverse_order_move (array_reverse_order_move s (i, j)) (i, j) = s := by
  apply list_eq_of_getD
  · rw [array_reverse_order_move_length, array_reverse_order_move_length]
  · intro q hq
    rw [array_reverse_order_move_length, array_reverse_order_move_length] at hq
    rw [array_reverse_order_move_getD (array_reverse_order_move s (i, j)) i j
      (by rw [array_reverse_order_move_length]; exact hj) q]
    by_cases hband : i ≤ q ∧ q ≤ j
    · rw [if_pos hband, array_reverse_order_move_getD s i j hj (j - (q - i)),
        if_pos (by omega)]
      congr 1
      omega
    · rw [if_neg hband, array_reverse_order_move_getD s i j hj q, if_neg hband]

/-- C3: applying a valid swap or reversal move and then undoing it restores
the sequence elementwise, and for both families undo_move performs exactly
the same transformation as move. -/
theorem claim_C3 (s : List Nat) (i j : Nat) (hij : i < j) (hj : j < s.length) :
    array_swap_undo_move (array_swap_move s (i, j)) (i, j) = s ∧
    array_reverse_order_undo_move (array_reverse_order_move s (i, j)) (i, j) = s ∧
    array_swap_undo_move = array_swap_move ∧
    array_reverse_order_undo_move = array_reverse_order_move :=
  ⟨array_swap_move_involutive s i j hij hj,
   array_reverse_order_move_involutive s i j hj,
   rfl, rfl⟩

/-- Witness for C3 at the sequence [4, 0, 3, 1, 2] and the move (0, 4). -/
theorem claim_C3_witness :
    ((0 : Nat) < 4 ∧ 4 < ([4, 0, 3, 1, 2] : List Nat).length) ∧
    (array_swap_undo_move (array_swap_move [4, 0, 3, 1, 2] (0, 4)) (0, 4) =
        [4, 0, 3, 1, 2] ∧
      array_reverse_order_undo_move
          (array_reverse_order_move [4, 0, 3, 1, 2] (0, 4)) (0, 4) = [4, 0, 3, 1, 2] ∧
      array_swap_undo_move = array_swap_move ∧
      array_reverse_order_undo_move = array_reverse_order_move) :=
  ⟨⟨by decide, by decide⟩, claim_C3 [4, 0, 3, 1, 2] 0 4 (by decide) (by decide)⟩

/-- Length of the double-loop move enumeration starting the outer index at
`s`: the number of pairs s ≤ i < j < n. -/
theorem get_moves_length (s n : Nat) :
    ((py_range s n).flatMap
      (fun i => (py_range (i + 1) n).map (fun j => (i, j)))).length =
      (n - s) * (n - s - 1) / 2 := by
  rw [List.length_flatMap]
  have h1 : (py_range s n).map
      (List.length ∘ (fun i => (py_range (i + 1) n).map (fun j => (i, j)))) =
      (py_range s n).map (fun i => n - i - 1) := by
    apply List.map_congr_left
    intro a _
    simp only [Function.comp, List.length_map, py_range, List.length_range']
    omega
  rw [h1]
  unfold py_range
  rw [List.range'_eq_map_range, List.map_map]
  rw [list_range_map_sum]
  have h2 : ∀ t ∈ Finset.range (n - s),
      ((fun i => n - i - 1) ∘ fun x => s + x) t = (n - s) - 1 - t := by
    intro t _
    simp only [Function.comp]
    omega
  rw [Finset.sum_congr rfl h2, Finset.sum_range_reflect (fun t => t) (n - s),
    Finset.sum_range_id]

/-- Membership in the double-loop move enumeration starting the outer index
at `s`. -/
theorem get_moves_mem (s n i j : Nat) :
    (i, j) ∈ (py_range s n).flatMap
        (fun i => (py_range (i + 1) n).map (fun j => (i, j))) ↔
      s ≤ i ∧ i < j ∧ j < n := by
  simp only [List.mem_flatMap, List.mem_map, py_range, List.mem_range'_1, Prod.mk.injEq]
  constructor
  · rintro ⟨a, ha, b, hb, rfl, rfl⟩
    omega
  · rintro ⟨h1, h2, h3⟩
    exact ⟨i, by omega, j, by omega, rfl, rfl⟩

/-- Pairwise ordering transfers through a flat map when each block is
internally ordered and blocks of earlier elements are ordered against
blocks of later elements. -/
theorem pairwise_flatMap {α β : Type} (R : β → β → Prop) (l : List α) (f : α → List β)
    (h1 : ∀ a ∈ l, (f a).Pairwise R)
    (h2 : List.Pairwise (fun a b => ∀ x ∈ f a, ∀ y ∈ f b, R x y) l) :
    (l.flatMap f).Pairwise R := by
  induction l with
  | nil => simp
  | cons a l ih =>
    rw [List.flatMap_cons, List.pairwise_append]
    rw [List.pairwise_cons] at h2
    refine ⟨h1 a (by simp), ih (fun b hb => h1 b (by simp [hb])) h2.2, ?_⟩
    intro x hx y hy
    rw [List.mem_flatMap] at hy
    obtain ⟨b, hb, hyb⟩ := hy
    exact h2.1 b hb x hx y hyb

/-- The double-loop move enumeration is strictly ascending in the
lexicographic order on (first index, second index). -/
theorem get_moves_pairwise (s n : Nat) :
    List.Pairwise (fun a b : Nat × Nat => a.1 < b.1 ∨ (a.1 = b.1 ∧ a.2 < b.2))
      ((py_range s n).flatMap
        (fun i => (py_range (i + 1) n).map (fun j => (i, j)))) := by
  apply pairwise_flatMap
  · intro a _
    rw [List.pairwise_map]
    unfold py_range
    exact List.Pairwise.imp (fun h => Or.inr ⟨rfl, h⟩)
      (List.pairwise_lt_range' (a + 1) (n - (a + 1)) 1)
  · unfold py_range
    apply List.Pairwise.imp ?_ (List.pairwise_lt_range' s (n - s) 1)
    intro a b hab
    intro x hx y hy
    rw [List.mem_map] at hx hy
    obtain ⟨x1, _, rfl⟩ := hx
    obtain ⟨y1, _, rfl⟩ := hy
    exact Or.inl hab

/-- A list that is strictly ascending in the lexicographic order has no
duplicates. -/
theorem nodup_of_pairwise_lex (l : List (Nat × Nat))
    (h : List.Pairwise (fun a b : Nat × Nat => a.1 < b.1 ∨ (a.1 = b.1 ∧ a.2 < b.2)) l) :
    l.Nodup := by
  apply List.Pairwise.imp ?_ h
  intro a b hab heq
  subst heq
  rcases hab with h1 | h2
  · omega
  · omega

/-- C4: ArraySwap.get_moves and ArrayReverseOrder.get_moves each yield
exactly n(n-1)/2 moves, every move (i, j) satisfies i < j < n and every
such pair occurs, there are no duplicates, and the enumeration ascends by
first index then second index.  For TspArraySwap the code is a slip: its
get_moves reads the never-assigned attribute `size`, so iterating it
raises AttributeError at every size instead of yielding the
(n-1)(n-2)/2 moves its own doctest promises; the enumeration the class
documents does yield exactly the (n-1)(n-2)/2 pairs with 1 ≤ i < j < n,
with no duplicates. -/
theorem claim_C4 (n : Nat) :
    (array_swap_get_moves n).length = n * (n - 1) / 2 ∧
    (∀ i j : Nat, (i, j) ∈ array_swap_get_moves n ↔ i < j ∧ j < n) ∧
    (array_swap_get_moves n).Nodup ∧
    List.Pairwise (fun a b : Nat × Nat => a.1 < b.1 ∨ (a.1 = b.1 ∧ a.2 < b.2))
      (array_swap_get_moves n) ∧
    array_reverse_order_get_moves n = array_swap_get_moves n ∧
    tsp_array_swap_get_moves n = Except.error PyError.attributeError ∧
    (tsp_array_swap_get_moves_intended n).length = (n - 1) * (n - 2) / 2 ∧
    (∀ i j : Nat,
      (i, j) ∈ tsp_array_swap_get_moves_intended n ↔ 1 ≤ i ∧ i < j ∧ j < n) ∧
    (tsp_array_swap_get_moves_intended n).Nodup := by
  refine ⟨?_, ?_, ?_, ?_, rfl, rfl, ?_, ?_, ?_⟩
  · rw [array_swap_get_moves, get_moves_length]
    congr 1
  · intro i j
    rw [array_swap_get_moves, get_moves_mem]
    omega
  · exact nodup_of_pairwise_lex _ (get_moves_pairwise 0 n)
  · exact get_moves_pairwise 0 n
  · rw [tsp_array_swap_get_moves_intended, get_moves_length]
    have h1 : n - 1 - 1 = n - 2 := by omega
    rw [h1]
  · intro i j
    rw [tsp_array_swap_get_moves_intended, get_moves_mem]
  · exact nodup_of_pairwise_lex _ (get_moves_pairwise 1 n)

/-- Applying any sequence of move / undo_move calls never changes the
best-found record. -/
theorem tsp_solution_apply_ops_best (move_function undo_function :
    List Nat → Nat × Nat → List Nat) (ops : List SolutionOp) :
    ∀ sol : TspSolution,
      (tsp_solution_apply_ops move_function undo_function sol ops).best_order =
        sol.best_order ∧
      (tsp_solution_apply_ops move_function undo_function sol ops).best_order_value =
        sol.best_order_value := by
  induction ops with
  | nil => intro sol; exact ⟨rfl, rfl⟩
  | cons op rest ih =>
    intro sol
    rw [tsp_solution_apply_ops, List.foldl_cons]
    cases op with
    | move mv => exact ih (tsp_solution_move move_function sol mv)
    | undo mv => exact ih (tsp_solution_undo_move undo_function sol mv)

/-- C9: after set_as_best(v) the best-found record holds the live order at
that moment together with v — no comparison with any previous best is
made — and any sequence of subsequent move / undo_move calls leaves
best_order and best_order_value unchanged. -/
theorem claim_C9 (move_function undo_function : List Nat → Nat × Nat → List Nat)
    (sol : TspSolution) (v : Int) (ops : List SolutionOp) :
    ((tsp_solution_set_as_best sol v).best_order = some sol.order ∧
      (tsp_solution_set_as_best sol v).best_order_value = some v) ∧
    (tsp_solution_apply_ops move_function undo_function
        (tsp_solution_set_as_best sol v) ops).best_order = some sol.order ∧
    (tsp_solution_apply_ops move_function undo_function
        (tsp_solution_set_as_best sol v) ops).best_order_value = some v :=
  ⟨⟨rfl, rfl⟩,
   (tsp_solution_apply_ops_best move_function undo_function ops
      (tsp_solution_set_as_best sol v)).1,
   (tsp_solution_apply_ops_best move_function undo_function ops
      (tsp_solution_set_as_best sol v)).2⟩

/-- C10: the QAP evaluation function's delta_evaluate raises
NotImplementedError for every order and move, whether or not a
move_function was supplied to the constructor. -/
theorem claim_C10 (has_move_function : Bool) (order : List Nat) (mv : Nat × Nat) :
    quadratic_assignment_delta_evaluate has_move_function order mv =
      Except.error PyError.notImplementedError := by
  cases has_move_function <;> rfl

/-- Folding termination events only counts the iteration_done events into
the counter and never touches the bound. -/
theorem max_iterations_fold (es : List TerminationEvent) :
    ∀ c : MaxIterationsTerminationCriterion,
      (es.foldl max_iterations_step c).iterations =
        c.iterations + es.countP is_iteration_done_event ∧
      (es.foldl max_iterations_step c).max_iterations = c.max_iterations := by
  induction es with
  | nil => intro c; simp
  | cons e rest ih =>
    intro c
    rw [List.foldl_cons, List.countP_cons]
    cases e with
    | iteration_done =>
      have h := ih (max_iterations_step c TerminationEvent.iteration_done)
      refine ⟨?_, h.2⟩
      rw [h.1]
      simp [max_iterations_step, MaxIterationsTerminationCriterion.iteration_done,
        is_iteration_done_event]
      omega
    | check_new_value v =>
      have h := ih (max_iterations_step c (TerminationEvent.check_new_value v))
      refine ⟨?_, h.2⟩
      rw [h.1]
      simp [max_iterations_step, MaxIterationsTerminationCriterion.check_new_value,
        is_iteration_done_event]

/-- C7: a MaxIterations criterion with bound k keeps running exactly while
fewer than k iteration_done calls have been made, whatever check_new_value
calls are interleaved. -/
theorem claim_C7 (k : Nat) (es : List TerminationEvent) :
    (es.foldl max_iterations_step (max_iterations_init k)).keep_running =
      decide (es.countP is_iteration_done_event < k) := by
  have h := max_iterations_fold es (max_iterations_init k)
  rw [MaxIterationsTerminationCriterion.keep_running, h.1, h.2]
  simp [max_iterations_init]

/-- Folding additions into a tabu list whose deque is within capacity
leaves exactly the last `maxlen` entries of the concatenation, oldest
first. -/
theorem tabu_list_fold_lst (k : Nat) (xs : List Nat) :
    ∀ init : List Nat, init.length ≤ k →
      ((xs.foldl TabuList.add { maxlen := k, lst := init }).lst =
        (init ++ xs).drop (init.length + xs.length - k) ∧
      (xs.foldl TabuList.add { maxlen := k, lst := init }).maxlen = k) := by
  induction xs with
  | nil =>
    intro init h
    refine ⟨?_, rfl⟩
    simp only [List.foldl_nil, List.append_nil, List.length_nil, Nat.add_zero]
    rw [Nat.sub_eq_zero_of_le h, List.drop_zero]
  | cons x rest ih =>
    intro init h
    rw [List.foldl_cons]
    have hadd : TabuList.add { maxlen := k, lst := init } x =
        { maxlen := k, lst := (init ++ [x]).drop (init.length + 1 - k) } := rfl
    rw [hadd]
    have hlen2 : ((init ++ [x]).drop (init.length + 1 - k)).length ≤ k := by
      rw [List.length_drop, List.length_append, List.length_singleton]
      omega
    obtain ⟨h1, h2⟩ := ih _ hlen2
    refine ⟨?_, h2⟩
    rw [h1]
    have hle : init.length + 1 - k ≤ (init ++ [x]).length := by
      rw [List.length_append, List.length_singleton]
      omega
    rw [← List.drop_append_of_le_length hle, List.drop_drop]
    have harr : (init ++ [x]) ++ rest = init ++ x :: rest := by
      rw [List.append_assoc, List.singleton_append]
    rw [harr]
    congr 1
    rw [List.length_drop, List.length_append, List.length_singleton, List.length_cons]
    omega

/-- C6: inserting n pairwise distinct fingerprints into a tabu list of
capacity k ≥ 1 with n > k leaves exactly the last k fingerprints, in
insertion order; exactly those test as contained and the first n-k do
not; no intermediate state holds more than k entries; and an insertion at
capacity drops exactly the oldest entry. -/
theorem claim_C6 (k : Nat) (xs : List Nat) (hk : 1 ≤ k) (hnodup : xs.Nodup)
    (hlen : k < xs.length) :
    (xs.foldl TabuList.add (tabu_list_init k)).lst = xs.drop (xs.length - k) ∧
    (∀ x ∈ xs.drop (xs.length - k),
      (xs.foldl TabuList.add (tabu_list_init k)).contains x = true) ∧
    (∀ x ∈ xs.take (xs.length - k),
      (xs.foldl TabuList.add (tabu_list_init k)).contains x = false) ∧
    (∀ m : Nat, ((xs.take m).foldl TabuList.add (tabu_list_init k)).lst.length ≤ k) ∧
    (∀ (t : TabuList) (y : Nat), t.maxlen = k → t.lst.length = k →
      (t.add y).lst = t.lst.tail ++ [y]) := by
  have hfold := tabu_list_fold_lst k xs [] (by simp)
  have hmain : (xs.foldl TabuList.add (tabu_list_init k)).lst =
      xs.drop (xs.length - k) := by
    rw [tabu_list_init]
    rw [hfold.1, List.nil_append]
    congr 1
    simp
  refine ⟨hmain, ?_, ?_, ?_, ?_⟩
  · intro x hx
    rw [TabuList.contains, hmain]
    exact decide_eq_true hx
  · intro x hx
    rw [TabuList.contains, hmain]
    have hdisj := List.disjoint_take_drop hnodup (Nat.le_refl (xs.length - k))
    rw [decide_eq_false_iff_not]
    intro hmem
    exact hdisj hx hmem
  · intro m
    have hfoldm := tabu_list_fold_lst k (xs.take m) [] (by simp)
    rw [tabu_list_init, hfoldm.1, List.nil_append, List.length_drop]
    omega
  · intro t y hmax hfull
    rw [TabuList.add, hmax, hfull]
    have h1 : k + 1 - k = 1 := by omega
    rw [h1, List.drop_append_of_le_length (by omega), List.drop_one]

/-- Witness for C6 with capacity 2 and five distinct fingerprints. -/
theorem claim_C6_witness :
    ((1 : Nat) ≤ 2 ∧ ([10, 11, 12, 13, 14] : List Nat).Nodup ∧
      2 < ([10, 11, 12, 13, 14] : List Nat).length) ∧
    ((([10, 11, 12, 13, 14] : List Nat).foldl TabuList.add (tabu_list_init 2)).lst =
        ([10, 11, 12, 13, 14] : List Nat).drop
          (([10, 11, 12, 13, 14] : List Nat).length - 2) ∧
      (∀ x ∈ ([10, 11, 12, 13, 14] : List Nat).drop
          (([10, 11, 12, 13, 14] : List Nat).length - 2),
        (([10, 11, 12, 13, 14] : List Nat).foldl TabuList.add
          (tabu_list_init 2)).contains x = true) ∧
      (∀ x ∈ ([10, 11, 12, 13, 14] : List Nat).take
          (([10, 11, 12, 13, 14] : List Nat).length - 2),
        (([10, 11, 12, 13, 14] : List Nat).foldl TabuList.add
          (tabu_list_init 2)).contains x = false) ∧
      (∀ m : Nat, ((([10, 11, 12, 13, 14] : List Nat).take m).foldl TabuList.add
        (tabu_list_init 2)).lst.length ≤ 2) ∧
      (∀ (t : TabuList) (y : Nat), t.maxlen = 2 → t.lst.length = 2 →
        (t.add y).lst = t.lst.tail ++ [y])) :=
  ⟨⟨by decide, by decide, by decide⟩,
   claim_C6 2 [10, 11, 12, 13, 14] (by decide) (by decide) (by decide)⟩

/-- Double coercion of integers into the extended integers preserves
strict order. -/
theorem coe2_lt_coe2 (a b : Int) :
    (((a : WithTop Int)) : WithBot (WithTop Int)) < (((b : WithTop Int)) : WithBot (WithTop Int)) ↔ a < b := by
  rw [WithBot.coe_lt_coe, WithTop.coe_lt_coe]

/-- The judgement returned by check_new_value is the configured comparison
of the value against the stored best. -/
theorem must_improve_check_fst (c : MustImproveTerminationCriterion) (v : Int) :
    (must_improve_check_new_value c v).1 =
      (if c.improvement_is_bigger then
        is_improvement_bigger_e c.old_best_value (((v : WithTop Int)) : WithBot (WithTop Int))
      else
        is_improvement_smaller_e c.old_best_value (((v : WithTop Int)) : WithBot (WithTop Int))) := by
  unfold must_improve_check_new_value
  dsimp only
  split <;> split <;> rfl

/-- A cleared run flag is never set again by later check_new_value calls. -/
theorem must_improve_fold_false (vs : List Int) :
    ∀ c : MustImproveTerminationCriterion, c.run = false →
      (vs.foldl must_improve_step c).run = false := by
  induction vs with
  | nil => intro c h; exact h
  | cons v rest ih =>
    intro c h
    rw [List.foldl_cons]
    apply ih
    unfold must_improve_step must_improve_check_new_value
    dsimp only
    split <;> split <;> first | exact h | rfl

/-- The first check_new_value call on a freshly constructed criterion
always judges the value an improvement. -/
theorem must_improve_first_call (big : Bool) (v : Int) :
    (must_improve_check_new_value (must_improve_init big) v).1 = true := by
  rw [must_improve_check_fst]
  cases big with
  | true =>
    simp only [must_improve_init, if_true, is_improvement_bigger_e, gt_iff_lt,
      decide_eq_true_eq]
    exact WithBot.bot_lt_coe _
  | false =>
    simp only [must_improve_init, Bool.false_eq_true, if_false, is_improvement_smaller_e,
      decide_eq_true_eq]
    rw [WithBot.coe_lt_coe]
    exact WithTop.coe_lt_top v

/-- One check_new_value call at a finite stored best: the state either
advances to the new value (on strict improvement) or clears the run
flag. -/
theorem must_improve_step_coe (w v : Int) (big : Bool) :
    must_improve_step
        { run := true, old_best_value := (((w : WithTop Int)) : WithBot (WithTop Int)),
          improvement_is_bigger := big } v =
      (if (if big then w < v else v < w) then
        { run := true, old_best_value := (((v : WithTop Int)) : WithBot (WithTop Int)),
          improvement_is_bigger := big }
      else
        { run := false, old_best_value := (((w : WithTop Int)) : WithBot (WithTop Int)),
          improvement_is_bigger := big }) := by
  unfold must_improve_step must_improve_check_new_value
  unfold is_improvement_bigger_e is_improvement_smaller_e
  cases big with
  | true =>
    by_cases h : w < v
    · simp [h, gt_iff_lt, coe2_lt_coe2]
    · simp [h, gt_iff_lt, coe2_lt_coe2]
  | false =>
    by_cases h : v < w
    · simp [h, coe2_lt_coe2]
    · simp [h, coe2_lt_coe2]

/-- Folding check_new_value calls from a running state with a finite
stored best keeps running exactly when the values form a strictly
improving chain from the stored best. -/
theorem must_improve_fold_coe (rest : List Int) :
    ∀ (w : Int) (big : Bool),
      (must_improve_keep_running (rest.foldl must_improve_step
        { run := true, old_best_value := (((w : WithTop Int)) : WithBot (WithTop Int)),
          improvement_is_bigger := big }) = true ↔
      List.Chain (fun a b : Int => if big then a < b else b < a) w rest) := by
  induction rest with
  | nil =>
    intro w big
    simp [must_improve_keep_running, List.Chain.nil]
  | cons v l ih =>
    intro w big
    rw [List.foldl_cons, must_improve_step_coe, List.chain_cons]
    by_cases hr : (if big then w < v else v < w)
    · rw [if_pos hr, ih v big]
      simp [hr]
    · rw [if_neg hr]
      have hfalse := must_improve_fold_false l
        { run := false, old_best_value := (((w : WithTop Int)) : WithBot (WithTop Int)),
          improvement_is_bigger := big } rfl
      constructor
      · intro hcontra
        rw [must_improve_keep_running, hfalse] at hcontra
        exact absurd hcontra (by decide)
      · intro hcontra
        exact absurd hcontra.1 hr

/-- keep_running after a sequence of check_new_value calls on a fresh
criterion is true exactly when the observed values strictly improve at
every step (the first call always improves). -/
theorem must_improve_run_iff (big : Bool) (vs : List Int) :
    (must_improve_keep_running (vs.foldl must_improve_step (must_improve_init big)) = true ↔
      List.Chain' (fun a b : Int => if big then a < b else b < a) vs) := by
  cases vs with
  | nil =>
    cases big with
    | true => simp [must_improve_keep_running, must_improve_init, List.Chain']
    | false => simp [must_improve_keep_running, must_improve_init, List.Chain']
  | cons v rest =>
    rw [List.foldl_cons]
    have hstep : must_improve_step (must_improve_init big) v =
        { run := true, old_best_value := (((v : WithTop Int)) : WithBot (WithTop Int)),
          improvement_is_bigger := big } := by
      cases big with
      | true =>
        simp only [must_improve_step, must_improve_check_new_value, must_improve_init,
          is_improvement_bigger_e, if_true, gt_iff_lt]
        rw [if_pos (decide_eq_true (WithBot.bot_lt_coe _))]
      | false =>
        simp only [must_improve_step, must_improve_check_new_value, must_improve_init,
          is_improvement_smaller_e, Bool.false_eq_true, if_false]
        rw [if_pos (decide_eq_true (by
          rw [WithBot.coe_lt_coe]
          exact WithTop.coe_lt_top v))]
    rw [hstep, must_improve_fold_coe rest v big]
    exact Iff.rfl

/-- C8: on a MustImprove criterion the internal best starts at minus
infinity (bigger-is-better) or plus infinity (smaller-is-better), so the
first check_new_value call with any finite value counts as an
improvement; keep_running stays true exactly while every observed value
strictly improves on the previous best (per the configured direction);
and once the run flag is cleared, keep_running is false after any further
calls. -/
theorem claim_C8 (big : Bool) (v : Int) (vs : List Int)
    (c : MustImproveTerminationCriterion) (hc : c.run = false) :
    (must_improve_check_new_value (must_improve_init big) v).1 = true ∧
    ((must_improve_init big).old_best_value =
      if big then ⊥ else ((⊤ : WithTop Int) : WithBot (WithTop Int))) ∧
    ((must_improve_keep_running (vs.foldl must_improve_step (must_improve_init big)) =
        true) ↔
      List.Chain' (fun a b : Int => if big then a < b else b < a) vs) ∧
    must_improve_keep_running (vs.foldl must_improve_step c) = false := by
  refine ⟨must_improve_first_call big v, ?_, must_improve_run_iff big vs, ?_⟩
  · cases big with
    | true => rfl
    | false => rfl
  · rw [must_improve_keep_running]
    exact must_improve_fold_false vs c hc

/-- Witness for C8 with bigger-is-better, first value 7, the observation
sequence [1, 5, 2] (which stops improving at 2) and a stopped state. -/
theorem claim_C8_witness :
    ({ run := false, old_best_value := ⊥, improvement_is_bigger := true } :
        MustImproveTerminationCriterion).run = false ∧
    ((must_improve_check_new_value (must_improve_init true) 7).1 = true ∧
    ((must_improve_init true).old_best_value =
      if true then ⊥ else ((⊤ : WithTop Int) : WithBot (WithTop Int))) ∧
    ((must_improve_keep_running
        (([1, 5, 2] : List Int).foldl must_improve_step (must_improve_init true)) =
        true) ↔
      List.Chain' (fun a b : Int => if true then a < b else b < a) [1, 5, 2]) ∧
    must_improve_keep_running (([1, 5, 2] : List Int).foldl must_improve_step
      { run := false, old_best_value := ⊥, improvement_is_bigger := true }) = false) :=
  ⟨rfl, claim_C8 true 7 [1, 5, 2]
    { run := false, old_best_value := ⊥, improvement_is_bigger := true } rfl⟩

/-- Unfolding the neighbourhood scan at its last move. -/
theorem steepest_descent_select_append (better : Int → Int → Bool)
    (f : Nat × Nat → Int) (l : List (Nat × Nat)) (a : Nat × Nat) :
    steepest_descent_select better f (l ++ [a]) =
      (match (steepest_descent_select better f l).1 with
       | none => (some (f a), some a)
       | some best_found_delta =>
         if better best_found_delta (f a) then (some (f a), some a)
         else steepest_descent_select better f l) := by
  rw [steepest_descent_select, steepest_descent_select, List.foldl_append,
    List.foldl_cons, List.foldl_nil]

/-- The neighbourhood scan returns the best delta of a nonempty
neighbourhood together with the first move attaining it: the returned
move's delta is beaten by no move, and no earlier-enumerated move has an
equal delta. -/
theorem steepest_descent_select_spec (better : Int → Int → Bool)
    (hirr : ∀ a : Int, better a a = false)
    (htrans : ∀ a b c : Int, better a b = true → better b c = true → better a c = true)
    (f : Nat × Nat → Int) (moves : List (Nat × Nat)) :
    moves ≠ [] →
      ∃ mv : Nat × Nat,
        steepest_descent_select better f moves = (some (f mv), some mv) ∧
        mv ∈ moves ∧
        (∀ m2 ∈ moves, better (f mv) (f m2) = false) ∧
        moves.find? (fun m2 => f m2 == f mv) = some mv := by
  induction moves using List.reverseRecOn with
  | nil => intro hne; exact absurd rfl hne
  | append_singleton l a ih =>
    intro _
    by_cases hl : l = []
    · subst hl
      refine ⟨a, rfl, by simp, ?_, by simp⟩
      intro m2 hm2
      rw [List.nil_append, List.mem_singleton] at hm2
      rw [hm2]
      exact hirr (f a)
    · obtain ⟨mv, hsel, hmem, hbest, hfind⟩ := ih hl
      rw [steepest_descent_select_append, hsel]
      cases hb : better (f mv) (f a) with
      | true =>
        refine ⟨a, by simp [hb], List.mem_append_right l (by simp), ?_, ?_⟩
        · intro m2 hm2
          rcases List.mem_append.mp hm2 with hm2l | hm2a
          · cases hc : better (f a) (f m2) with
            | false => rfl
            | true =>
              have hcontra := htrans (f mv) (f a) (f m2) hb hc
              rw [hbest m2 hm2l] at hcontra
              exact absurd hcontra (by decide)
          · rw [List.mem_singleton] at hm2a
            rw [hm2a]
            exact hirr (f a)
        · rw [List.find?_append]
          have hnone : l.find? (fun m2 => f m2 == f a) = none := by
            rw [List.find?_eq_none]
            intro x hx hcontra
            rw [beq_iff_eq] at hcontra
            have hbx := hbest x hx
            rw [← hcontra] at hb
            rw [hb] at hbx
            exact absurd hbx (by decide)
          rw [hnone]
          simp
      | false =>
        refine ⟨mv, by simp [hb], List.mem_append_left [a] hmem, ?_, ?_⟩
        · intro m2 hm2
          rcases List.mem_append.mp hm2 with hm2l | hm2a
          · exact hbest m2 hm2l
          · rw [List.mem_singleton] at hm2a
            rw [hm2a]
            exact hb
        · rw [List.find?_append, hfind]
          rfl

/-- C5 counterexample: one iteration of the embedded SteepestDescent loop
on the spec's 4-city minimise instance, started at the optimal order
[0, 1, 3, 2] (value 15).  The full neighbourhood scan selects the move
(1, 3) with best delta 0; the new value 15 does not beat the best-found
value 15, so the loop applies no move at all — the state is returned
unchanged even though applying the selected move would change the order.
This refutes the claim that the selected move is applied
unconditionally. -/
theorem claim_C5_counterexample :
    steepest_descent_select is_improvement_smaller
        (fun mv => tsp_delta_evaluate
          (fun a b => (([[0, 2, 5, 8], [2, 0, 4, 1], [5, 4, 0, 7], [8, 1, 7, 0]] :
            List (List Int)).getD a []).getD b 0)
          (array_swap_changed_distances 4)
          array_swap_transform_next_index_to_current_index [0, 1, 3, 2] mv)
        (tsp_array_swap_get_moves_intended 4) = (some 0, some (1, 3)) ∧
    steepest_descent_iteration is_improvement_smaller
        (fun ord mv => tsp_delta_evaluate
          (fun a b => (([[0, 2, 5, 8], [2, 0, 4, 1], [5, 4, 0, 7], [8, 1, 7, 0]] :
            List (List Int)).getD a []).getD b 0)
          (array_swap_changed_distances 4)
          array_swap_transform_next_index_to_current_index ord mv)
        (fun ord mv => array_swap_move ord mv)
        (tsp_array_swap_get_moves_intended 4)
        { order := [0, 1, 3, 2], best_order := [0, 1, 3, 2],
          best_order_value := 15, base_value := 15 } =
      { order := [0, 1, 3, 2], best_order := [0, 1, 3, 2],
        best_order_value := 15, base_value := 15 } ∧
    array_swap_move [0, 1, 3, 2] (1, 3) ≠ [0, 1, 3, 2] := by
  decide

/-- C5 as amended: in every loop iteration with a nonempty neighbourhood,
SteepestDescent.run scans the entire neighbourhood and selects the single
move with the best delta, ties broken by the first one seen in
enumeration order; it applies that move to the solution and updates the
best-found record exactly when the resulting value strictly beats the
prior best (per the configured direction) — when it does not, the
solution and the best-found record are left unchanged and only the
internal running value absorbs the delta. -/
theorem claim_C5 (minimise : Bool) (evaluate_move : List Nat → Nat × Nat → Int)
    (apply_move : List Nat → Nat × Nat → List Nat)
    (moves : List (Nat × Nat)) (st : SteepestDescentState) (hne : moves ≠ []) :
    ∃ mv : Nat × Nat,
      mv ∈ moves ∧
      steepest_descent_select
          (if minimise then is_improvement_smaller else is_improvement_bigger)
          (evaluate_move st.order) moves =
        (some (evaluate_move st.order mv), some mv) ∧
      (∀ m2 ∈ moves,
        (if minimise then is_improvement_smaller else is_improvement_bigger)
          (evaluate_move st.order mv) (evaluate_move st.order m2) = false) ∧
      moves.find?
        (fun m2 => evaluate_move st.order m2 == evaluate_move st.order mv) = some mv ∧
      steepest_descent_iteration
          (if minimise then is_improvement_smaller else is_improvement_bigger)
          evaluate_move apply_move moves st =
        (if (if minimise then is_improvement_smaller else is_improvement_bigger)
              st.best_order_value (st.base_value + evaluate_move st.order mv) then
          { order := apply_move st.order mv,
            best_order := apply_move st.order mv,
            best_order_value := st.base_value + evaluate_move st.order mv,
            base_value := st.base_value + evaluate_move st.order mv }
        else { st with base_value := st.base_value + evaluate_move st.order mv }) := by
  have hirr : ∀ a : Int,
      (if minimise then is_improvement_smaller else is_improvement_bigger) a a =
        false := by
    intro a
    cases minimise <;> simp [is_improvement_smaller, is_improvement_bigger]
  have htrans : ∀ a b c : Int,
      (if minimise then is_improvement_smaller else is_improvement_bigger) a b = true →
      (if minimise then is_improvement_smaller else is_improvement_bigger) b c = true →
      (if minimise then is_improvement_smaller else is_improvement_bigger) a c =
        true := by
    intro a b c h1 h2
    cases minimise <;>
      (simp [is_improvement_smaller, is_improvement_bigger] at h1 h2 ⊢; omega)
  obtain ⟨mv, hsel, hmem, hbest, hfind⟩ :=
    steepest_descent_select_spec
      (if minimise then is_improvement_smaller else is_improvement_bigger)
      hirr htrans (evaluate_move st.order) moves hne
  refine ⟨mv, hmem, hsel, hbest, hfind, ?_⟩
  rw [steepest_descent_iteration, hsel]

/-- Witness for the amended C5 at the spec's 4-city minimise instance
started from the optimal order [0, 1, 3, 2] with value 15. -/
theorem claim_C5_witness :
    tsp_array_swap_get_moves_intended 4 ≠ [] ∧
    (∃ mv : Nat × Nat,
      mv ∈ tsp_array_swap_get_moves_intended 4 ∧
      steepest_descent_select is_improvement_smaller
          (fun mv2 => tsp_delta_evaluate
            (fun a b => (([[0, 2, 5, 8], [2, 0, 4, 1], [5, 4, 0, 7], [8, 1, 7, 0]] :
              List (List Int)).getD a []).getD b 0)
            (array_swap_changed_distances 4)
            array_swap_transform_next_index_to_current_index [0, 1, 3, 2] mv2)
          (tsp_array_swap_get_moves_intended 4) =
        (some (tsp_delta_evaluate
          (fun a b => (([[0, 2, 5, 8], [2, 0, 4, 1], [5, 4, 0, 7], [8, 1, 7, 0]] :
            List (List Int)).getD a []).getD b 0)
          (array_swap_changed_distances 4)
          array_swap_transform_next_index_to_current_index [0, 1, 3, 2] mv), some mv) ∧
      (∀ m2 ∈ tsp_array_swap_get_moves_intended 4,
        is_improvement_smaller
          (tsp_delta_evaluate
            (fun a b => (([[0, 2, 5, 8], [2, 0, 4, 1], [5, 4, 0, 7], [8, 1, 7, 0]] :
              List (List Int)).getD a []).getD b 0)
            (array_swap_changed_distances 4)
            array_swap_transform_next_index_to_current_index [0, 1, 3, 2] mv)
          (tsp_delta_evaluate
            (fun a b => (([[0, 2, 5, 8], [2, 0, 4, 1], [5, 4, 0, 7], [8, 1, 7, 0]] :
              List (List Int)).getD a []).getD b 0)
            (array_swap_changed_distances 4)
            array_swap_transform_next_index_to_current_index [0, 1, 3, 2] m2) = false) ∧
      (tsp_array_swap_get_moves_intended 4).find?
        (fun m2 => tsp_delta_evaluate
            (fun a b => (([[0, 2, 5, 8], [2, 0, 4, 1], [5, 4, 0, 7], [8, 1, 7, 0]] :
              List (List Int)).getD a []).getD b 0)
            (array_swap_changed_distances 4)
            array_swap_transform_next_index_to_current_index [0, 1, 3, 2] m2 ==
          tsp_delta_evaluate
            (fun a b => (([[0, 2, 5, 8], [2, 0, 4, 1], [5, 4, 0, 7], [8, 1, 7, 0]] :
              List (List Int)).getD a []).getD b 0)
            (array_swap_changed_distances 4)
            array_swap_transform_next_index_to_current_index [0, 1, 3, 2] mv) =
        some mv ∧
      steepest_descent_iteration is_improvement_smaller
          (fun ord mv2 => tsp_delta_evaluate
            (fun a b => (([[0, 2, 5, 8], [2, 0, 4, 1], [5, 4, 0, 7], [8, 1, 7, 0]] :
              List (List Int)).getD a []).getD b 0)
            (array_swap_changed_distances 4)
            array_swap_transform_next_index_to_current_index ord mv2)
          (fun ord mv2 => array_swap_move ord mv2) (tsp_array_swap_get_moves_intended 4)
          { order := [0, 1, 3, 2], best_order := [0, 1, 3, 2],
            best_order_value := 15, base_value := 15 } =
        (if is_improvement_smaller 15
            (15 + tsp_delta_evaluate
              (fun a b => (([[0, 2, 5, 8], [2, 0, 4, 1], [5, 4, 0, 7], [8, 1, 7, 0]] :
                List (List Int)).getD a []).getD b 0)
              (array_swap_changed_distances 4)
              array_swap_transform_next_index_to_current_index [0, 1, 3, 2] mv) then
          { order := array_swap_move [0, 1, 3, 2] mv,
            best_order := array_swap_move [0, 1, 3, 2] mv,
            best_order_value := 15 + tsp_delta_evaluate
              (fun a b => (([[0, 2, 5, 8], [2, 0, 4, 1], [5, 4, 0, 7], [8, 1, 7, 0]] :
                List (List Int)).getD a []).getD b 0)
              (array_swap_changed_distances 4)
              array_swap_transform_next_index_to_current_index [0, 1, 3, 2] mv,
            base_value := 15 + tsp_delta_evaluate
              (fun a b => (([[0, 2, 5, 8], [2, 0, 4, 1], [5, 4, 0, 7], [8, 1, 7, 0]] :
                List (List Int)).getD a []).getD b 0)
              (array_swap_changed_distances 4)
              array_swap_transform_next_index_to_current_index [0, 1, 3, 2] mv }
        else
          { order := [0, 1, 3, 2], best_order := [0, 1, 3, 2],
            best_order_value := 15,
            base_value := 15 + tsp_delta_evaluate
              (fun a b => (([[0, 2, 5, 8], [2, 0, 4, 1], [5, 4, 0, 7], [8, 1, 7, 0]] :
                List (List Int)).getD a []).getD b 0)
              (array_swap_changed_distances 4)
              array_swap_transform_next_index_to_current_index [0, 1, 3, 2] mv })) :=
  ⟨by decide,
   claim_C5 true
     (fun ord mv2 => tsp_delta_evaluate
       (fun a b => (([[0, 2, 5, 8], [2, 0, 4, 1], [5, 4, 0, 7], [8, 1, 7, 0]] :
         List (List Int)).getD a []).getD b 0)
       (array_swap_changed_distances 4)
       array_swap_transform_next_index_to_current_index ord mv2)
     (fun ord mv2 => array_swap_move ord mv2) (tsp_array_swap_get_moves_intended 4)
     { order := [0, 1, 3, 2], best_order := [0, 1, 3, 2],
       best_order_value := 15, base_value := 15 } (by decide)⟩
